import Mathlib

/-!
Shallow embedding of the Project_MULBIT training script
(src/Deep-learning/02. Model (Alpha)/08. Multi-scale Transformer+Feng.py).

Conventions of the embedding:
* A table cell is an `Option ℚ`: `some q` is an ordinary float value,
  `none` is the pandas NaN placeholder (as produced when `data.loc` creates
  a new column and leaves earlier rows unfilled).  Exact rational arithmetic
  stands in for IEEE floats.
* A pandas DataFrame is a `Table`: an ordered list of column names plus a
  list of rows (each row a list of cells).  A well-formed table is
  rectangular: every row has exactly `cols.length` cells.
* Fallible pandas operations (KeyError on a missing column, ValueError on
  `max` of an empty sequence) are modelled with `Except String`.
* `pandas.Series.mean` and `.std` skip NaN entries and `.std` uses the
  sample convention (ddof = 1).  Since a square root is not rational, the
  standard-deviation function used by the normalization step is passed as an
  explicit parameter `std`; theorems that depend on its value constrain it by
  its defining property `(std c)^2 = sampleVar c`, `0 < std c`.
-/

namespace Mulbit

/-- A cell of the data table: `some q` is a numeric value, `none` is NaN. -/
abbrev Cell := Option ℚ

/-- Addition on cells: NaN propagates, mirroring float addition where one
operand is NaN. -/
def oadd (a b : Cell) : Cell :=
  match a, b with
  | some x, some y => some (x + y)
  | _, _ => none

/-- Python `sum` over a list of cells (initial accumulator `0`). -/
def osum (l : List Cell) : Cell := l.foldr oadd (some 0)

/-! ### Circular buffers of `create_features` (source lines 68-86)

`rainfall_scale[scale]` is a Python list of length `scale + 1`, initialized
to all zeros.  For the row with 0-based position `month`, the loop body does
`index = (month % scale) + 1`, writes the row value into slot `index`, and
stores the cursor `index` itself into slot 0. -/

/-- The initial buffer `[0] * (scale + 1)` of `create_features`. -/
def initBuf (s : ℕ) : List Cell := List.replicate (s + 1) (some 0)

/-- One iteration of the per-row, per-scale buffer update
(source lines 78-86). -/
def stepBuf (s : ℕ) (buf : List Cell) (month : ℕ) (v : Cell) : List Cell :=
  let index := month % s + 1
  (buf.set index v).set 0 (some (index : ℚ))

/-- Run the buffer update over a list of rows whose first row has position
`m` (the loop of source lines 74-86, restricted to one scale). -/
def runBufFrom (s : ℕ) : ℕ → List Cell → List Cell → List Cell
  | _, [], buf => buf
  | m, v :: rest, buf => runBufFrom s (m + 1) rest (stepBuf s buf m v)

/-- The buffer contents after processing all rows of `vs` (positions
`0, 1, ...`). -/
def runBuf (s : ℕ) (vs : List Cell) : List Cell := runBufFrom s 0 vs (initBuf s)

/-! ### Tables -/

/-- A pandas DataFrame: ordered column names and rows of cells. -/
structure Table where
  cols : List String
  rows : List (List Cell)
deriving DecidableEq, Repr

/-- A table is well-formed (rectangular) when every row has exactly one cell
per column.  `pd.read_excel` always produces such a table. -/
def Table.WF (t : Table) : Prop := ∀ r ∈ t.rows, r.length = t.cols.length

instance (t : Table) : Decidable t.WF := by
  unfold Table.WF; infer_instance

/-- Column `j` of a table, as a list of cells (missing cells read as NaN;
a well-formed table never has missing cells for `j < cols.length`). -/
def Table.col (t : Table) (j : ℕ) : List Cell :=
  t.rows.map (fun r => r.getD j none)

/-- The column name `Rainfall` of the input schema. -/
def rainName : String := "Rainfall"

/-- The column name `Dam_Level` of the input schema. -/
def damName : String := "Dam_Level"

/-- The derived column name `Total_Rainfall_{scale}`. -/
def trName (s : ℕ) : String := "Total_Rainfall_" ++ toString s

/-- The derived column name `Avg_Dam_Level_{scale}`. -/
def adlName (s : ℕ) : String := "Avg_Dam_Level_" ++ toString s

/-- The message of the KeyError raised on a missing column. -/
def keyErrMsg : String := "KeyError"

/-- The message of the ValueError raised by Python `max` on `[]`. -/
def maxErrMsg : String := "ValueError: max() arg is an empty sequence"

/-- Python `max(scales)` for the scale list (only used on nonempty lists;
the empty case is guarded by an explicit error). -/
def maxL (scales : List ℕ) : ℕ := scales.foldr max 0

/-- Total rainfall emitted at row `m` for scale `s`: `sum(buffer[1:])` where
the buffer has processed rows `0 .. m` (source line 92). -/
def totalRain (s : ℕ) (rcol : List Cell) (m : ℕ) : Cell :=
  osum ((runBuf s (rcol.take (m + 1))).drop 1)

/-- Average dam level emitted at row `m` for scale `s`:
`sum(buffer[1:]) / scale` (source line 93). -/
def avgDam (s : ℕ) (dcol : List Cell) (m : ℕ) : Cell :=
  (osum ((runBuf s (dcol.take (m + 1))).drop 1)).map (fun x => x / (s : ℚ))

/-- The names of the derived columns, in creation order: the first row that
reaches `max(scales)` iterates the scale list and writes
`Total_Rainfall_s` then `Avg_Dam_Level_s` for each scale in turn. -/
def derivedNames (scales : List ℕ) : List String :=
  (scales.map (fun s => [trName s, adlName s])).flatten

/-- The derived cells of row `m`: values once `m` reaches `max(scales)`,
NaN placeholders on the earlier rows (created by the `data.loc` column
insertion, source lines 88-97). -/
def derivedRow (scales : List ℕ) (rcol dcol : List Cell) (m : ℕ) : List Cell :=
  if maxL scales ≤ m then
    (scales.map (fun s => [totalRain s rcol m, avgDam s dcol m])).flatten
  else
    List.replicate (2 * scales.length) none

/-- `create_features(data, scales)` (source lines 68-99).

Faithfulness notes.  The Python loop reads `row['Rainfall']` and
`row['Dam_Level']` for every row (KeyError when the column is missing and at
least one row exists), evaluates `max(scales)` for every row (ValueError on
an empty scale list), and writes the derived cells with
`data.loc[month, name]`, which creates each derived column at the first
write — so no column at all is created when no row position reaches
`max(scales)`, and rows before that threshold hold NaN.  A `data.loc` write
at row `month` never changes any other row, and the values written at row
`month` depend only on the buffer state after processing rows `0 .. month`,
so the net effect on the table is: base columns unchanged, derived columns
appended with the per-row values of `derivedRow`.  The `iterrows` snapshot
is taken before any column is added, so the loop reads only base columns.
The translation assumes the configured scales are pairwise distinct (as the
hard-coded `[12, 24, 36]` are); duplicated scales would make the dict
collapse duplicate buffers onto one key. -/
def create_features (t : Table) (scales : List ℕ) : Except String Table :=
  if t.rows = [] then .ok t
  else
    match t.cols.indexOf? rainName, t.cols.indexOf? damName with
    | some jr, some jd =>
        if scales = [] then .error maxErrMsg
        else if t.rows.length ≤ maxL scales then .ok t
        else
          .ok { cols := t.cols ++ derivedNames scales,
                rows := t.rows.mapIdx
                  (fun m r => r ++ derivedRow scales (t.col jr) (t.col jd) m) }
    | _, _ => .error keyErrMsg

/-! ### Normalization (source lines 42-44)

`self.data[column] = (self.data[column] - self.data[column].mean()) /
self.data[column].std()` for every column after the first two.  Each column
is rescaled with statistics of its own original values, so the sequential
loop is a per-column map.  `mean` and `std` skip NaN; `std` is sample
standard deviation (ddof = 1) and involves a square root, so it is an
explicit parameter of the embedding (see the file header). -/

/-- Mean of a list of rationals. -/
def meanQ (l : List ℚ) : ℚ := l.sum / (l.length : ℚ)

/-- Sample variance (ddof = 1) of a list of rationals. -/
def varQ (l : List ℚ) : ℚ :=
  (l.map (fun x => (x - meanQ l) ^ 2)).sum / ((l.length : ℚ) - 1)

/-- `pandas.Series.mean` with NaN skipped. -/
def omean (xs : List Cell) : ℚ := meanQ xs.reduceOption

/-- `pandas.Series.var` with NaN skipped and ddof = 1; the square of the
standard deviation `pandas.Series.std` computes. -/
def sampleVar (xs : List Cell) : ℚ := varQ xs.reduceOption

/-- The normalization loop of `DamDataset.__init__`: every column except the
first two is replaced by `(column - mean) / std`, cell-wise (NaN stays NaN,
as in float arithmetic). -/
def normalizeTable (std : List Cell → ℚ) (t : Table) : Table :=
  { cols := t.cols,
    rows := t.rows.map (fun r => r.mapIdx (fun j x =>
      if j < 2 then x
      else x.map (fun v => (v - omean (t.col j)) / std (t.col j)))) }

/-- Drop the column named `c` (pandas `drop(c, axis=1)`); only invoked after
the column has been looked up successfully. -/
def dropColumn (t : Table) (c : String) : Table :=
  match t.cols.indexOf? c with
  | none => t
  | some j => { cols := t.cols.eraseIdx j,
                rows := t.rows.map (fun r => r.eraseIdx j) }

/-! ### DamDataset (source lines 31-66) -/

/-- The state of a constructed `DamDataset`: the normalized feature table
with the label column dropped, the extracted (normalized) labels, and the
input scale list. -/
structure DamDataset where
  data : Table
  labels : List Cell
  scales : List ℕ
deriving DecidableEq, Repr

/-- `DamDataset.__init__(excel_file, scales, scales2)` after the table has
been loaded from the spreadsheet (source lines 31-50): run
`create_features` with `scales2`, normalize every column except the first
two, extract the `Dam_Level` column as labels (KeyError when absent), and
drop it from the feature table. -/
def damDatasetInit (std : List Cell → ℚ) (t : Table)
    (scales scales2 : List ℕ) : Except String DamDataset :=
  match create_features t scales2 with
  | .error e => .error e
  | .ok d =>
      let nd := normalizeTable std d
      match nd.cols.indexOf? damName with
      | none => .error keyErrMsg
      | some jd =>
          .ok { data := dropColumn nd damName,
                labels := nd.col jd,
                scales := scales }

/-- The slice `self.data.iloc[max(0, idx - scale + 1) : idx + 1]` of
`__getitem__` (source lines 59-60); `iloc` clips at both ends, which the
`take`/`drop` of natural-number indices reproduces exactly. -/
def windowSlice (t : Table) (s idx : ℕ) : List (List Cell) :=
  (t.rows.take (idx + 1)).drop (idx + 1 - s)

/-- The list `samples` built by the loop of `__getitem__`
(source lines 57-61): one window per input scale, in scale-list order. -/
def getitemSamples (d : DamDataset) (idx : ℕ) : List (List (List Cell)) :=
  d.scales.map (fun s => windowSlice d.data s idx)

/-- `torch.Tensor(samples)`: packing a list of 2-D slices into one tensor
succeeds exactly when the nested lists are rectangular (all windows have one
common length and all rows one common width); otherwise the constructor
raises, modelled as `none`.  NaN entries are ordinary float payload and do
not affect packing. -/
def packTensor (samples : List (List (List Cell))) :
    Option (List (List (List Cell))) :=
  if samples.all (fun w =>
      w.length == (samples.headD []).length &&
        w.all (fun r => r.length == ((samples.headD []).headD []).length))
  then some samples else none

/-- `DamDataset.__getitem__(idx)` (source lines 52-66): build the per-scale
windows, pack them into one tensor (which can raise), read the label
`self.labels[idx]` (IndexError when out of range, modelled as `none`), and
return the pair `(samples, [label])`. -/
def getitem (d : DamDataset) (idx : ℕ) :
    Option (List (List (List Cell)) × List Cell) :=
  match packTensor (getitemSamples d idx), d.labels.get? idx with
  | some smp, some l => some (smp, [l])
  | _, _ => none

/-! ### Multi-scale model, shape semantics (source lines 7-28)

The claims about `MultiScaleTransformerModel.forward` concern tensor shapes,
so the model is embedded at the shape level: a tensor is its shape, a list
of dimension sizes. -/

/-- Shape semantics of `nn.Linear(inF, outF)`: applies to the last
dimension, which must equal `inF`; a 0-dimensional input or a mismatched
last dimension raises. -/
def linearShape (inF outF : ℕ) (x : List ℕ) : Option (List ℕ) :=
  match x.getLast? with
  | none => none
  | some d => if d = inF then some (x.dropLast ++ [outF]) else none

/-- Shape semantics of the call `self.transformers[i](encoded)`
(source line 24).  Modelled from the PyTorch API: `nn.Transformer.forward`
has signature `forward(src, tgt, ...)` with no default for `tgt`, so a call
with a single positional argument raises TypeError before any tensor
computation; the call therefore never produces a tensor. -/
def transformerOneArgCall (_x : List ℕ) : Option (List ℕ) := none

/-- Shape semantics of `torch.cat(outs, dim=-1)`: all shapes must agree
except in the last dimension, whose sizes add up; an empty list raises. -/
def catLastDim (shapes : List (List ℕ)) : Option (List ℕ) :=
  match shapes with
  | [] => none
  | x :: rest =>
      if rest.all (fun y => y.dropLast == x.dropLast && y.length == x.length)
      then (x.getLast?).map (fun d =>
        x.dropLast ++ [rest.foldl (fun acc y => acc + y.getLast?.getD 0) d])
      else none

/-- One branch of `forward` (source lines 22-25): select `x[:, i, :, :]`
(requires a 4-dimensional input whose second dimension exceeds `i`), apply
the branch encoder, then the branch transformer. -/
def branchShape (inputSize hiddenSize : ℕ) (x : List ℕ) (i : ℕ) :
    Option (List ℕ) :=
  match x with
  | [b, scls, l, f] =>
      if i < scls then
        (linearShape inputSize hiddenSize [b, l, f]).bind transformerOneArgCall
      else none
  | _ => none

/-- The accumulation `outs = []; for i in range(num_scales): outs.append(...)`
of `forward`, over the index list: the first raising branch aborts the
call. -/
def collectBranches (f : ℕ → Option (List ℕ)) : List ℕ → Option (List (List ℕ))
  | [] => some []
  | i :: rest => (f i).bind (fun y => (collectBranches f rest).map (y :: ·))

/-- Shape semantics of `MultiScaleTransformerModel.forward` (source lines
20-28): run every branch, concatenate the branch outputs along the last
dimension, and apply the decoder `nn.Linear(hiddenSize * numScales, 1)`. -/
def multiScaleForwardShape (inputSize hiddenSize numScales : ℕ)
    (x : List ℕ) : Option (List ℕ) :=
  (collectBranches (branchShape inputSize hiddenSize x)
      (List.range numScales)).bind
    (fun outs => (catLastDim outs).bind
      (linearShape (hiddenSize * numScales) 1))

/-! ### Training loop loss buffer (source lines 106-122, 143)

`main` allocates `loss_months = [0] * 12` once; each `train` call overwrites
slot `epoch % 12` with the current batch loss and prints
`sum(loss_months) / len(loss_months)`.  The claims concern the scenario of
one recorded loss per epoch. -/

/-- `loss_months[epoch % 12] = loss.item()` (source line 115). -/
def recordLoss (buf : List ℚ) (epoch : ℕ) (loss : ℚ) : List ℚ :=
  buf.set (epoch % 12) loss

/-- `sum(loss_months) / len(loss_months)` (source line 118), the rolling
average printed after each batch. -/
def reportAvg (buf : List ℚ) : ℚ := buf.sum / (buf.length : ℚ)

/-- The loss buffer after epochs `1 .. n`, each epoch recording the single
loss `losses e` (the buffer starts as `[0] * 12`, source line 143, and the
epoch loop starts at 1, source line 145). -/
def runEpochs (losses : ℕ → ℚ) : ℕ → List ℚ
  | 0 => List.replicate 12 0
  | n + 1 => recordLoss (runEpochs losses n) (n + 1) (losses (n + 1))

/-! ### Concrete instances used by witnesses and counterexamples -/

/-- A four-row input table with the raw schema of the spec. -/
def exTable : Table :=
  { cols := ["year", "month", rainName, damName],
    rows := [[some 2000, some 1, some 10, some 5],
             [some 2000, some 2, some 20, some 6],
             [some 2000, some 3, some 30, some 7],
             [some 2000, some 4, some 40, some 8]] }

/-- A one-row input table: shorter than every configured scale. -/
def exShort : Table :=
  { cols := exTable.cols,
    rows := [[some 2000, some 1, some 10, some 5]] }

/-- A three-row input table: shorter than the configured scale 12. -/
def exThree : Table :=
  { cols := exTable.cols,
    rows := exTable.rows.take 3 }

/-- A three-row table whose third column is `0, 1, 2` (sample variance 1),
for the normalization witness. -/
def exNorm : Table :=
  { cols := exTable.cols.take 2 ++ [damName],
    rows := [[some 2000, some 1, some 0],
             [some 2000, some 2, some 1],
             [some 2000, some 3, some 2]] }

/-- The empty string, the default used when reading a column name. -/
def emptyStr : String := ""

/-- A constant standard-deviation function used to instantiate witnesses. -/
def oneStd : List Cell → ℚ := fun _ => 1

/-- The empty dataset, used as a default when unpacking `Except` values. -/
def emptyDataset : DamDataset :=
  { data := { cols := [], rows := [] }, labels := [], scales := [] }

/-- The dataset built from the one-row table with the hard-coded input
scales `[12, 24, 36, 48]` of `main`. -/
def exDatasetRagged : DamDataset :=
  (damDatasetInit oneStd exShort [12, 24, 36, 48] [12]).toOption.getD emptyDataset

/-- The dataset built from the four-row table with input scales `[2, 3]`. -/
def exDataset23 : DamDataset :=
  (damDatasetInit oneStd exTable [2, 3] [2]).toOption.getD emptyDataset

/-- The dataset built from the one-row table with input scales `[1]`. -/
def exDataset1 : DamDataset :=
  (damDatasetInit oneStd exShort [1] [1]).toOption.getD emptyDataset

/-! ## Theorems -/

/-! ### Supporting lemmas: the circular buffer computes trailing windows -/

theorem oadd_left_comm (a b c : Cell) :
    oadd a (oadd b c) = oadd b (oadd a c) := by
  cases a <;> cases b <;> cases c <;> simp [oadd, add_left_comm]

theorem osum_cons (a : Cell) (l : List Cell) :
    osum (a :: l) = oadd a (osum l) := rfl

theorem osum_perm {l1 l2 : List Cell} (h : l1.Perm l2) : osum l1 = osum l2 := by
  induction h with
  | nil => rfl
  | cons x _ ih => rw [osum_cons, osum_cons, ih]
  | swap x y l => rw [osum_cons, osum_cons, osum_cons, osum_cons, oadd_left_comm]
  | trans _ _ ih1 ih2 => exact ih1.trans ih2

theorem length_runBufFrom (s m : ℕ) (vs buf : List Cell) :
    (runBufFrom s m vs buf).length = buf.length := by
  induction vs generalizing m buf with
  | nil => rfl
  | cons v rest ih => simp [runBufFrom, ih, stepBuf]

theorem runBufFrom_concat (s m : ℕ) (vs : List Cell) (v : Cell)
    (buf : List Cell) :
    runBufFrom s m (vs ++ [v]) buf =
      stepBuf s (runBufFrom s m vs buf) (m + vs.length) v := by
  induction vs generalizing m buf with
  | nil => simp [runBufFrom]
  | cons w rest ih =>
      show runBufFrom s (m + 1) (rest ++ [v]) (stepBuf s buf m w) = _
      rw [ih]
      have h2 : m + 1 + rest.length = m + (w :: rest).length := by
        simp; omega
      rw [h2]
      rfl

theorem stepBuf_drop_one (s : ℕ) (buf : List Cell) (m : ℕ) (v : Cell) :
    (stepBuf s buf m v).drop 1 = (buf.drop 1).set (m % s) v := by
  unfold stepBuf
  rw [List.drop_set, if_pos (by omega), List.drop_set, if_neg (by omega)]
  simp

theorem set_map_range {α : Type} (n : ℕ) (f : ℕ → α) (p : ℕ) (v : α) :
    ((List.range n).map f).set p v =
      (List.range n).map (fun j => if j = p then v else f j) := by
  apply List.ext_getElem
  · simp
  · intro i h1 h2
    rw [List.getElem_set]
    simp only [List.getElem_map, List.getElem_range]
    rcases eq_or_ne p i with h | h
    · simp [h]
    · rw [if_neg h, if_neg (Ne.symm h)]

/-- Closed form of the circular buffer after processing the rows of `vs`:
slot `j + 1` holds the value of the most recent row whose position is
congruent to `j` modulo the scale (or the initial zero when no such row
exists yet). -/
theorem runBuf_drop_one (s : ℕ) (hs : 0 < s) (vs : List Cell) :
    (runBuf s vs).drop 1 =
      (List.range s).map (fun j =>
        if j < vs.length
        then vs.getD (vs.length - 1 - ((vs.length - 1 - j) % s)) (some 0)
        else some 0) := by
  induction vs using List.reverseRecOn with
  | nil =>
      apply List.ext_getElem
      · simp [runBuf, runBufFrom, initBuf]
      · intro i h1 h2
        simp [runBuf, runBufFrom, initBuf]
  | append_singleton vs v ih =>
      have hrun : runBuf s (vs ++ [v]) = stepBuf s (runBuf s vs) vs.length v := by
        unfold runBuf; rw [runBufFrom_concat]; simp
      rw [hrun, stepBuf_drop_one, ih, set_map_range]
      apply List.map_congr_left
      intro j hj
      have hjs : j < s := List.mem_range.mp hj
      have hlen : (vs ++ [v]).length = vs.length + 1 := by simp
      rw [hlen]
      simp only [Nat.add_sub_cancel]
      set k := vs.length with hkdef
      by_cases hjk : j = k % s
      · rw [if_pos hjk, if_pos (by have := Nat.mod_le k s; omega)]
        have h0 : (k - j) % s = 0 := by
          have hd : k % s + s * (k / s) = k := Nat.mod_add_div k s
          have he : k - j = s * (k / s) := by omega
          rw [he]; exact Nat.mul_mod_right s _
        rw [h0, Nat.sub_zero]
        have hv : (vs ++ [v]).getD k (some 0) = v := by
          rw [List.getD_append_right _ _ _ _ (le_refl k)]
          simp
        rw [hv]
      · rw [if_neg hjk]
        by_cases hjlt : j < k
        · rw [if_pos hjlt, if_pos (by omega)]
          have hne : (k - j) % s ≠ 0 := by
            intro h0
            obtain ⟨q, hq⟩ := Nat.dvd_of_mod_eq_zero h0
            have hkj : k = j + s * q := by omega
            apply hjk
            rw [hkj, Nat.add_mul_mod_self_left, Nat.mod_eq_of_lt hjs]
          have hge1 : 1 ≤ (k - j) % s := Nat.one_le_iff_ne_zero.mpr hne
          have hle : (k - j) % s ≤ k - j := Nat.mod_le _ _
          have hmod : (k - 1 - j) % s = (k - j) % s - 1 := by
            have hd : s * ((k - j) / s) + (k - j) % s = k - j :=
              Nat.div_add_mod _ s
            have h1 : k - 1 - j = s * ((k - j) / s) + ((k - j) % s - 1) := by
              omega
            rw [h1, Nat.mul_add_mod]
            exact Nat.mod_eq_of_lt (by have := Nat.mod_lt (k - j) hs; omega)
          rw [hmod]
          have hidx : k - 1 - ((k - j) % s - 1) = k - (k - j) % s := by omega
          rw [hidx]
          rw [List.getD_append _ _ _ _ (by omega)]
        · have hjek : j ≠ k := by
            intro he; apply hjk; rw [he, Nat.mod_eq_of_lt (he ▸ hjs)]
          rw [if_neg hjlt, if_neg (by omega)]

/-- The sum of the buffer contents (slot 0 excluded) equals the sum of the
trailing `s` rows, once at least `s` rows have been processed. -/
theorem runBuf_window (s : ℕ) (hs : 0 < s) (vs : List Cell)
    (hk : s ≤ vs.length) :
    osum ((runBuf s vs).drop 1) = osum (vs.drop (vs.length - s)) := by
  set k := vs.length with hkdef
  rw [runBuf_drop_one s hs]
  have hcong : (List.range s).map (fun j =>
        if j < k
        then vs.getD (k - 1 - ((k - 1 - j) % s)) (some 0)
        else some 0)
      = (List.range s).map
          (fun j => vs.getD (k - 1 - ((k - 1 - j) % s)) (some 0)) := by
    apply List.map_congr_left
    intro j hj
    rw [if_pos (lt_of_lt_of_le (List.mem_range.mp hj) hk)]
  rw [hcong]
  have hdrop : vs.drop (k - s) =
      (List.range s).map (fun j => vs.getD (k - s + j) (some 0)) := by
    apply List.ext_getElem
    · simp; omega
    · intro i h1 h2
      simp only [List.length_drop] at h1
      rw [List.getElem_drop]
      simp only [List.getElem_map, List.getElem_range]
      rw [List.getD_eq_getElem _ _ (by omega)]
  rw [hdrop]
  have hm1 : (List.range s).map
        (fun j => vs.getD (k - 1 - ((k - 1 - j) % s)) (some 0))
      = ((List.range s).map (fun j => k - 1 - ((k - 1 - j) % s))).map
          (fun i => vs.getD i (some 0)) := by
    rw [List.map_map]; rfl
  have hm2 : (List.range s).map (fun j => vs.getD (k - s + j) (some 0))
      = ((List.range s).map (fun j => k - s + j)).map
          (fun i => vs.getD i (some 0)) := by
    rw [List.map_map]; rfl
  rw [hm1, hm2]
  apply osum_perm
  apply List.Perm.map
  apply List.perm_of_nodup_nodup_toFinset_eq
  · apply List.Nodup.map_on _ (List.nodup_range s)
    intro j1 h1 j2 h2 he
    have hj1 : j1 < s := List.mem_range.mp h1
    have hj2 : j2 < s := List.mem_range.mp h2
    have b1 : (k - 1 - j1) % s ≤ k - 1 :=
      le_trans (Nat.mod_le _ _) (by omega)
    have b2 : (k - 1 - j2) % s ≤ k - 1 :=
      le_trans (Nat.mod_le _ _) (by omega)
    have e1 : (k - 1 - j1) % s = (k - 1 - j2) % s := by omega
    have hd1 : ((k - 1 - j1) - (k - 1 - j2)) % s = 0 :=
      Nat.sub_mod_eq_zero_of_mod_eq e1
    have hd2 : ((k - 1 - j2) - (k - 1 - j1)) % s = 0 :=
      Nat.sub_mod_eq_zero_of_mod_eq e1.symm
    have z1 := Nat.eq_zero_of_dvd_of_lt (Nat.dvd_of_mod_eq_zero hd1)
    have z2 := Nat.eq_zero_of_dvd_of_lt (Nat.dvd_of_mod_eq_zero hd2)
    rcases Nat.lt_or_ge ((k - 1 - j1) - (k - 1 - j2)) s with hx1 | hx1
    · rcases Nat.lt_or_ge ((k - 1 - j2) - (k - 1 - j1)) s with hx2 | hx2
      · have := z1 hx1
        have := z2 hx2
        omega
      · omega
    · omega
  · apply List.Nodup.map_on _ (List.nodup_range s)
    intro j1 _ j2 _ he
    omega
  · apply Finset.ext
    intro x
    simp only [List.mem_toFinset, List.mem_map, List.mem_range]
    constructor
    · rintro ⟨j, hj, rfl⟩
      have hv1 : (k - 1 - j) % s < s := Nat.mod_lt _ hs
      have hv2 : (k - 1 - j) % s ≤ k - 1 :=
        le_trans (Nat.mod_le _ _) (by omega)
      refine ⟨(k - 1 - ((k - 1 - j) % s)) - (k - s), by omega, by omega⟩
    · rintro ⟨j, hj, rfl⟩
      refine ⟨(k - s + j) % s, Nat.mod_lt _ hs, ?_⟩
      have hx1 : k - s ≤ k - s + j := by omega
      have hx2 : k - s + j ≤ k - 1 := by omega
      have hxm : (k - s + j) % s ≤ k - s + j := Nat.mod_le _ _
      have hmsub : (k - s + j) - (k - s + j) % s = s * ((k - s + j) / s) := by
        have := Nat.div_add_mod (k - s + j) s; omega
      have h5 : k - 1 - (k - s + j) % s =
          (k - 1 - (k - s + j)) + s * ((k - s + j) / s) := by omega
      rw [h5, Nat.add_mul_mod_self_left, Nat.mod_eq_of_lt (by omega)]
      omega

/-! ### Supporting lemmas: indexing the engineered table -/

theorem le_maxL {s : ℕ} {scales : List ℕ} (h : s ∈ scales) :
    s ≤ maxL scales := by
  induction scales with
  | nil => simp at h
  | cons a rest ih =>
      rcases List.mem_cons.mp h with h | h
      · subst h; exact le_max_left _ _
      · exact le_trans (ih h) (le_max_right _ _)

theorem getD_mem {scales : List ℕ} {p : ℕ} (hp : p < scales.length) :
    scales.getD p 0 ∈ scales := by
  rw [List.getD_eq_getElem _ _ hp]
  exact List.getElem_mem _

theorem mapIdx_getD {α β : Type} (l : List α) (f : ℕ → α → β) (i : ℕ)
    (hi : i < l.length) (d : β) (d2 : α) :
    (l.mapIdx f).getD i d = f i (l.getD i d2) := by
  rw [List.getD_eq_getElem _ _ (by simpa using hi), List.getElem_mapIdx,
    List.getD_eq_getElem _ _ hi]

theorem derivedNames_getD (scales : List ℕ) (p : ℕ) (hp : p < scales.length) :
    (derivedNames scales).getD (2 * p) emptyStr = trName (scales.getD p 0) ∧
    (derivedNames scales).getD (2 * p + 1) emptyStr =
      adlName (scales.getD p 0) := by
  induction scales generalizing p with
  | nil => simp at hp
  | cons a rest ih =>
      cases p with
      | zero => simp [derivedNames]
      | succ q =>
          have hq : q < rest.length := by simpa using hp
          have h2 : 2 * (q + 1) = 2 * q + 1 + 1 := by ring
          rw [h2]
          simpa [derivedNames] using ih q hq

theorem derivedRow_getD (scales : List ℕ) (rcol dcol : List Cell) (m p : ℕ)
    (h : maxL scales ≤ m) (hp : p < scales.length) :
    (derivedRow scales rcol dcol m).getD (2 * p) none =
        totalRain (scales.getD p 0) rcol m ∧
    (derivedRow scales rcol dcol m).getD (2 * p + 1) none =
        avgDam (scales.getD p 0) dcol m := by
  unfold derivedRow
  rw [if_pos h]
  clear h
  induction scales generalizing p with
  | nil => simp at hp
  | cons a rest ih =>
      cases p with
      | zero => simp
      | succ q =>
          have hq : q < rest.length := by simpa using hp
          have h2 : 2 * (q + 1) = 2 * q + 1 + 1 := by ring
          rw [h2]
          simpa using ih q hq

theorem flatten_pairs_length {α : Type} (f g : ℕ → α) (scales : List ℕ) :
    ((scales.map (fun s => [f s, g s])).flatten).length = 2 * scales.length := by
  induction scales with
  | nil => rfl
  | cons a rest ih => simp at ih ⊢; omega

theorem derivedNames_length (scales : List ℕ) :
    (derivedNames scales).length = 2 * scales.length :=
  flatten_pairs_length trName adlName scales

theorem derivedRow_length (scales : List ℕ) (rcol dcol : List Cell) (m : ℕ) :
    (derivedRow scales rcol dcol m).length = 2 * scales.length := by
  unfold derivedRow
  split
  · exact flatten_pairs_length _ _ scales
  · simp

/-- The `.ok` value of `create_features` in the column-creating case. -/
theorem create_features_eq_ok (t : Table) (scales : List ℕ) (jr jd : ℕ)
    (hjr : t.cols.indexOf? rainName = some jr)
    (hjd : t.cols.indexOf? damName = some jd)
    (hsc : scales ≠ [])
    (hlen : maxL scales < t.rows.length) :
    create_features t scales = .ok
      { cols := t.cols ++ derivedNames scales,
        rows := t.rows.mapIdx
          (fun m r => r ++ derivedRow scales (t.col jr) (t.col jd) m) } := by
  have hrow : t.rows ≠ [] := by
    intro h; rw [h] at hlen; simp at hlen
  have hlen2 : ¬ t.rows.length ≤ maxL scales := by omega
  simp only [create_features, hjr, hjd, if_neg hrow, if_neg hsc, if_neg hlen2]

/-- Claim C1: for every configured feature-engineering scale `s` (the entry
at position `p` of the scale list) and every row index `i` with
`max(scales) ≤ i`, the `Total_Rainfall_s` column of the table produced by
`create_features` holds at row `i` the sum of the `Rainfall` column over
rows `i - s + 1 .. i`, and the `Avg_Dam_Level_s` column holds that range's
sum of `Dam_Level` divided by `s` (its arithmetic mean over the `s` rows),
as computed through the per-scale circular buffers. -/
theorem c1_rolling_aggregates
    (t : Table) (scales : List ℕ) (jr jd : ℕ)
    (hwf : t.WF)
    (hjr : t.cols.indexOf? rainName = some jr)
    (hjd : t.cols.indexOf? damName = some jd)
    (hpos : ∀ s ∈ scales, 0 < s)
    (p : ℕ) (hp : p < scales.length)
    (i : ℕ) (hmax : maxL scales ≤ i) (hin : i < t.rows.length) :
    ∃ te, create_features t scales = .ok te ∧
      te.cols.getD (t.cols.length + 2 * p) emptyStr =
        trName (scales.getD p 0) ∧
      te.cols.getD (t.cols.length + 2 * p + 1) emptyStr =
        adlName (scales.getD p 0) ∧
      (te.rows.getD i []).getD (t.cols.length + 2 * p) none =
        osum (((t.col jr).take (i + 1)).drop (i + 1 - scales.getD p 0)) ∧
      (te.rows.getD i []).getD (t.cols.length + 2 * p + 1) none =
        (osum (((t.col jd).take (i + 1)).drop (i + 1 - scales.getD p 0))).map
          (fun x => x / ((scales.getD p 0 : ℕ) : ℚ)) := by
  have hsmem : scales.getD p 0 ∈ scales := getD_mem hp
  have hspos : 0 < scales.getD p 0 := hpos _ hsmem
  have hsle : scales.getD p 0 ≤ maxL scales := le_maxL hsmem
  have hsc : scales ≠ [] := by
    intro h; rw [h] at hp; simp at hp
  refine ⟨_, create_features_eq_ok t scales jr jd hjr hjd hsc (by omega),
    ?_, ?_, ?_, ?_⟩
  · rw [List.getD_append_right _ _ _ _ (by omega),
      show t.cols.length + 2 * p - t.cols.length = 2 * p by omega]
    exact (derivedNames_getD scales p hp).1
  · rw [show t.cols.length + 2 * p + 1 = t.cols.length + (2 * p + 1) by omega,
      List.getD_append_right _ _ _ _ (by omega),
      show t.cols.length + (2 * p + 1) - t.cols.length = 2 * p + 1 by omega]
    exact (derivedNames_getD scales p hp).2
  · rw [mapIdx_getD _ _ _ hin _ []]
    have hrl : (t.rows.getD i []).length = t.cols.length := by
      apply hwf
      rw [List.getD_eq_getElem _ _ hin]
      exact List.getElem_mem _
    rw [List.getD_append_right _ _ _ _ (by omega),
      show t.cols.length + 2 * p - (t.rows.getD i []).length = 2 * p by omega]
    rw [(derivedRow_getD scales _ _ i p hmax hp).1]
    unfold totalRain
    have hvl : ((t.col jr).take (i + 1)).length = i + 1 := by
      simp [Table.col]; omega
    have hw := runBuf_window (scales.getD p 0) hspos ((t.col jr).take (i + 1))
      (by rw [hvl]; omega)
    rw [hvl] at hw
    exact hw
  · rw [mapIdx_getD _ _ _ hin _ []]
    have hrl : (t.rows.getD i []).length = t.cols.length := by
      apply hwf
      rw [List.getD_eq_getElem _ _ hin]
      exact List.getElem_mem _
    rw [show t.cols.length + 2 * p + 1 = t.cols.length + (2 * p + 1) by omega,
      List.getD_append_right _ _ _ _ (by omega),
      show t.cols.length + (2 * p + 1) - (t.rows.getD i []).length = 2 * p + 1
        by omega]
    rw [(derivedRow_getD scales _ _ i p hmax hp).2]
    unfold avgDam
    have hvl : ((t.col jd).take (i + 1)).length = i + 1 := by
      simp [Table.col]; omega
    have hw := runBuf_window (scales.getD p 0) hspos ((t.col jd).take (i + 1))
      (by rw [hvl]; omega)
    rw [hvl] at hw
    rw [hw]

/-- Witness for C1 at a concrete input: the four-row table, scale list
`[2]`, row 2. -/
theorem c1_rolling_aggregates_witness :
    (exTable.WF ∧ exTable.cols.indexOf? rainName = some 2 ∧
      exTable.cols.indexOf? damName = some 3 ∧
      (∀ s ∈ ([2] : List ℕ), 0 < s) ∧ (0 : ℕ) < ([2] : List ℕ).length ∧
      maxL [2] ≤ 2 ∧ 2 < exTable.rows.length) ∧
    (∃ te, create_features exTable [2] = .ok te ∧
      te.cols.getD (exTable.cols.length + 2 * 0) emptyStr =
        trName (([2] : List ℕ).getD 0 0) ∧
      te.cols.getD (exTable.cols.length + 2 * 0 + 1) emptyStr =
        adlName (([2] : List ℕ).getD 0 0) ∧
      (te.rows.getD 2 []).getD (exTable.cols.length + 2 * 0) none =
        osum (((exTable.col 2).take (2 + 1)).drop
          (2 + 1 - ([2] : List ℕ).getD 0 0)) ∧
      (te.rows.getD 2 []).getD (exTable.cols.length + 2 * 0 + 1) none =
        (osum (((exTable.col 3).take (2 + 1)).drop
          (2 + 1 - ([2] : List ℕ).getD 0 0))).map
            (fun x => x / ((([2] : List ℕ).getD 0 0 : ℕ) : ℚ))) :=
  ⟨⟨by decide, by decide, by decide, by decide, by decide, by decide,
      by decide⟩,
    c1_rolling_aggregates exTable [2] 2 3 (by decide) (by decide) (by decide)
      (by decide) 0 (by decide) 2 (by decide) (by decide)⟩

/-! ### Supporting lemmas: placeholders and unchanged frames -/

theorem getD_replicate_none (n q : ℕ) :
    (List.replicate n (none : Cell)).getD q none = none := by
  induction n generalizing q with
  | zero => simp
  | succ k ih =>
      cases q with
      | zero => simp [List.replicate_succ]
      | succ r => simp [List.replicate_succ, ih]

theorem indexOf?_eq_none_mem {a : String} {l : List String} :
    l.indexOf? a = none ↔ a ∉ l := by
  rw [List.indexOf?_eq_none_iff]
  constructor
  · intro h hmem
    have := h a hmem
    simp at this
  · intro h x hx
    simp only [beq_iff_eq]
    intro he
    exact h (he ▸ hx)

theorem indexOf?_isSome_of_mem {a : String} {l : List String} (h : a ∈ l) :
    ∃ j, l.indexOf? a = some j := by
  rcases hopt : l.indexOf? a with _ | j
  · exact absurd (indexOf?_eq_none_mem.mp hopt) (by simp [h])
  · exact ⟨j, rfl⟩

/-- Claim C7: for every row index `i` below `max(scales)`, the engineered
table carries no derived value at row `i`: either no derived column exists
at all (when no row position reaches `max(scales)`), or the derived cells of
row `i` are the NaN placeholder — never a silent zero or a partial
aggregate.  Values are emitted only from row `max(scales)` onward (the
emitted values are the subject of C1). -/
theorem c7_early_rows_undefined
    (t : Table) (scales : List ℕ) (jr jd : ℕ)
    (hwf : t.WF)
    (hjr : t.cols.indexOf? rainName = some jr)
    (hjd : t.cols.indexOf? damName = some jd)
    (hsc : scales ≠ [])
    (i : ℕ) (hi : i < maxL scales) (hin : i < t.rows.length) :
    ∃ te, create_features t scales = .ok te ∧
      (t.rows.length ≤ maxL scales → te = t) ∧
      (maxL scales < t.rows.length →
        te.cols.length = t.cols.length + 2 * scales.length ∧
        ∀ q < 2 * scales.length,
          (te.rows.getD i []).getD (t.cols.length + q) none = none) := by
  have hrow : t.rows ≠ [] := by
    intro h; rw [h] at hin; simp at hin
  by_cases hn : t.rows.length ≤ maxL scales
  · refine ⟨t, ?_, fun _ => rfl, fun h => absurd h (by omega)⟩
    simp only [create_features, hjr, hjd, if_neg hrow, if_neg hsc, if_pos hn]
  · refine ⟨_, create_features_eq_ok t scales jr jd hjr hjd hsc (by omega),
      fun h => absurd h hn, fun _ => ⟨?_, ?_⟩⟩
    · simp [derivedNames_length]
    · intro q hq
      rw [mapIdx_getD _ _ _ hin _ []]
      have hrl : (t.rows.getD i []).length = t.cols.length := by
        apply hwf
        rw [List.getD_eq_getElem _ _ hin]
        exact List.getElem_mem _
      rw [List.getD_append_right _ _ _ _ (by omega),
        show t.cols.length + q - (t.rows.getD i []).length = q by omega]
      unfold derivedRow
      rw [if_neg (by omega)]
      exact getD_replicate_none _ _

/-- Witness for C7 at a concrete input: the four-row table, scale list
`[2]`, row 1. -/
theorem c7_early_rows_undefined_witness :
    (exTable.WF ∧ exTable.cols.indexOf? rainName = some 2 ∧
      exTable.cols.indexOf? damName = some 3 ∧ ([2] : List ℕ) ≠ [] ∧
      1 < maxL [2] ∧ 1 < exTable.rows.length) ∧
    (∃ te, create_features exTable [2] = .ok te ∧
      (exTable.rows.length ≤ maxL [2] → te = exTable) ∧
      (maxL [2] < exTable.rows.length →
        te.cols.length = exTable.cols.length + 2 * ([2] : List ℕ).length ∧
        ∀ q < 2 * ([2] : List ℕ).length,
          (te.rows.getD 1 []).getD (exTable.cols.length + q) none = none)) :=
  ⟨⟨by decide, by decide, by decide, by decide, by decide, by decide⟩,
    c7_early_rows_undefined exTable [2] 2 3 (by decide) (by decide)
      (by decide) (by decide) 1 (by decide) (by decide)⟩

/-- Claim C9 (amended): `create_features` leaves every pre-existing column
name and every pre-existing cell unchanged; it appends exactly two derived
columns per configured scale when the table has more than `max(scales)`
rows, and appends no column at all when it does not (so the two-columns-per-
scale clause of the original claim only holds above that length). -/
theorem c9_frame_effect
    (t : Table) (scales : List ℕ) (jr jd : ℕ)
    (hwf : t.WF)
    (hjr : t.cols.indexOf? rainName = some jr)
    (hjd : t.cols.indexOf? damName = some jd)
    (hsc : scales ≠ []) :
    ∃ te, create_features t scales = .ok te ∧
      (t.rows.length ≤ maxL scales → te = t) ∧
      (maxL scales < t.rows.length →
        te.cols = t.cols ++ derivedNames scales ∧
        (derivedNames scales).length = 2 * scales.length ∧
        te.rows.length = t.rows.length ∧
        ∀ i < t.rows.length,
          (te.rows.getD i []).take t.cols.length = t.rows.getD i []) := by
  by_cases hrow : t.rows = []
  · refine ⟨t, ?_, fun _ => rfl, fun h => absurd h (by rw [hrow]; simp)⟩
    simp only [create_features, if_pos hrow]
  · by_cases hn : t.rows.length ≤ maxL scales
    · refine ⟨t, ?_, fun _ => rfl, fun h => absurd h (by omega)⟩
      simp only [create_features, hjr, hjd, if_neg hrow, if_neg hsc, if_pos hn]
    · refine ⟨_, create_features_eq_ok t scales jr jd hjr hjd hsc (by omega),
        fun h => absurd h hn, fun _ => ⟨rfl, derivedNames_length scales, by simp,
        ?_⟩⟩
      intro i hi
      rw [mapIdx_getD _ _ _ hi _ []]
      have hrl : (t.rows.getD i []).length = t.cols.length := by
        apply hwf
        rw [List.getD_eq_getElem _ _ hi]
        exact List.getElem_mem _
      exact List.take_left' hrl

/-- Witness for C9 at a concrete input: the four-row table, scale list
`[2]`. -/
theorem c9_frame_effect_witness :
    (exTable.WF ∧ exTable.cols.indexOf? rainName = some 2 ∧
      exTable.cols.indexOf? damName = some 3 ∧ ([2] : List ℕ) ≠ []) ∧
    (∃ te, create_features exTable [2] = .ok te ∧
      (exTable.rows.length ≤ maxL [2] → te = exTable) ∧
      (maxL [2] < exTable.rows.length →
        te.cols = exTable.cols ++ derivedNames [2] ∧
        (derivedNames [2]).length = 2 * ([2] : List ℕ).length ∧
        te.rows.length = exTable.rows.length ∧
        ∀ i < exTable.rows.length,
          (te.rows.getD i []).take exTable.cols.length =
            exTable.rows.getD i [])) :=
  ⟨⟨by decide, by decide, by decide, by decide⟩,
    c9_frame_effect exTable [2] 2 3 (by decide) (by decide) (by decide)
      (by decide)⟩

/-- Counterexample to C9 as stated: on the one-row table (fewer rows than
the scale 2), `create_features` adds no column at all — the output is the
unchanged input and contains neither derived column for scale 2, against
the claim that exactly two derived columns are added per configured
scale. -/
theorem c9_counterexample :
    create_features exShort [2] = .ok exShort ∧
    trName 2 ∉ exShort.cols ∧ adlName 2 ∉ exShort.cols :=
  ⟨rfl, by decide, by decide⟩

/-! ### Supporting lemmas: construction error cases -/

theorem damName_not_derived (scales : List ℕ) :
    damName ∉ derivedNames scales := by
  intro h
  induction scales with
  | nil => simp [derivedNames] at h
  | cons a rest ih =>
      have hcons : derivedNames (a :: rest) =
          trName a :: adlName a :: derivedNames rest := by
        simp [derivedNames]
      rw [hcons] at h
      have h9 : damName.length = 9 := by decide
      rcases List.mem_cons.mp h with h1 | h1
      · have hlen := congrArg String.length h1
        unfold trName at hlen
        rw [String.length_append] at hlen
        have h15 : (("Total_Rainfall_" : String)).length = 15 := by decide
        rw [h15, h9] at hlen
        omega
      · rcases List.mem_cons.mp h1 with h2 | h2
        · have hlen := congrArg String.length h2
          unfold adlName at hlen
          rw [String.length_append] at hlen
          have h14 : (("Avg_Dam_Level_" : String)).length = 14 := by decide
          rw [h14, h9] at hlen
          omega
        · exact ih h2

theorem cf_error_iff (t : Table) (scales : List ℕ) (hsc : scales ≠ []) :
    (∃ e, create_features t scales = .error e) ↔
      (t.rows ≠ [] ∧ (rainName ∉ t.cols ∨ damName ∉ t.cols)) := by
  by_cases hrows : t.rows = []
  · simp only [create_features, if_pos hrows]
    simp [hrows]
  · by_cases hrain : rainName ∈ t.cols
    · obtain ⟨jr, hjr⟩ := indexOf?_isSome_of_mem hrain
      by_cases hdam : damName ∈ t.cols
      · obtain ⟨jd, hjd⟩ := indexOf?_isSome_of_mem hdam
        by_cases hlen : t.rows.length ≤ maxL scales
        · simp only [create_features, hjr, hjd, if_neg hrows, if_neg hsc,
            if_pos hlen]
          simp [hrows, hrain, hdam]
        · simp only [create_features, hjr, hjd, if_neg hrows, if_neg hsc,
            if_neg hlen]
          simp [hrows, hrain, hdam]
      · have hjd : t.cols.indexOf? damName = none :=
          indexOf?_eq_none_mem.mpr hdam
        simp only [create_features, hjr, hjd, if_neg hrows]
        simp [hrows, hdam, keyErrMsg]
    · have hjr : t.cols.indexOf? rainName = none :=
        indexOf?_eq_none_mem.mpr hrain
      simp only [create_features, hjr, if_neg hrows]
      simp [hrows, hrain, keyErrMsg]

theorem cf_ok_cols {t : Table} {scales : List ℕ} {te : Table}
    (h : create_features t scales = .ok te) :
    te.cols = t.cols ∨ te.cols = t.cols ++ derivedNames scales := by
  unfold create_features at h
  split at h
  · injection h with h2; rw [← h2]; exact Or.inl rfl
  · split at h
    · split at h
      · cases h
      · split at h
        · injection h with h2; rw [← h2]; exact Or.inl rfl
        · injection h with h2; rw [← h2]; exact Or.inr rfl
    · cases h

/-- Claim C3 (amended): with a nonempty feature-engineering scale list,
`DamDataset` construction fails exactly when the label column `Dam_Level`
is absent, or the table has at least one row and the `Rainfall` column is
absent.  A configured scale exceeding the available history does **not**
make construction fail (see the counterexample): the dataset is built with
no derived columns. -/
theorem c3_construction_error_cases (std : List Cell → ℚ) (t : Table)
    (scales scales2 : List ℕ) (h2 : scales2 ≠ []) :
    (damDatasetInit std t scales scales2).isOk = false ↔
      (damName ∉ t.cols ∨ (t.rows ≠ [] ∧ rainName ∉ t.cols)) := by
  rcases hcf : create_features t scales2 with e | te
  · have h := (cf_error_iff t scales2 h2).mp ⟨e, hcf⟩
    have hR : damName ∉ t.cols ∨ (t.rows ≠ [] ∧ rainName ∉ t.cols) := by
      rcases h.2 with h3 | h3
      · exact Or.inr ⟨h.1, h3⟩
      · exact Or.inl h3
    simp only [damDatasetInit, hcf]
    simp [Except.isOk, Except.toBool, hR]
  · have hnoterr : ¬(t.rows ≠ [] ∧ (rainName ∉ t.cols ∨ damName ∉ t.cols)) := by
      intro hcon
      obtain ⟨e, he⟩ := (cf_error_iff t scales2 h2).mpr hcon
      rw [hcf] at he
      cases he
    have hcols := cf_ok_cols hcf
    by_cases hdam : damName ∈ t.cols
    · have hmem : damName ∈ (normalizeTable std te).cols := by
        show damName ∈ te.cols
        rcases hcols with h | h <;> rw [h]
        · exact hdam
        · exact List.mem_append_left _ hdam
      obtain ⟨jd, hjd⟩ := indexOf?_isSome_of_mem hmem
      simp only [damDatasetInit, hcf, hjd]
      constructor
      · intro hko
        exact absurd hko (by simp [Except.isOk, Except.toBool])
      · rintro (hbad | ⟨hrne, hrnot⟩)
        · exact absurd hdam hbad
        · exact absurd ⟨hrne, Or.inl hrnot⟩ hnoterr
    · have hnotmem : damName ∉ (normalizeTable std te).cols := by
        show damName ∉ te.cols
        rcases hcols with h | h <;> rw [h]
        · exact hdam
        · rw [List.mem_append]
          rintro (hx | hx)
          · exact hdam hx
          · exact damName_not_derived scales2 hx
      have hjd : (normalizeTable std te).cols.indexOf? damName = none :=
        indexOf?_eq_none_mem.mpr hnotmem
      simp only [damDatasetInit, hcf, hjd]
      simp [Except.isOk, Except.toBool, hdam]

/-- Witness for C3 at a concrete input: the one-row table with all raw
columns present constructs successfully. -/
theorem c3_construction_error_cases_witness :
    (([1] : List ℕ) ≠ []) ∧
    ((damDatasetInit oneStd exShort [1] [1]).isOk = false ↔
      (damName ∉ exShort.cols ∨ (exShort.rows ≠ [] ∧ rainName ∉ exShort.cols))) :=
  ⟨by decide, c3_construction_error_cases oneStd exShort [1] [1] (by decide)⟩

/-- Counterexample to C3 as stated: a three-row table is shorter than every
configured scale (`12, 24, 36, 48` and feature scale `12`), yet
`DamDataset` construction succeeds — the claimed failure when a scale
exceeds the available history does not occur. -/
theorem c3_counterexample :
    exThree.rows.length = 3 ∧
    (damDatasetInit oneStd exThree [12, 24, 36, 48] [12]).isOk = true :=
  ⟨by decide, by decide⟩

/-! ### Supporting lemmas: normalization algebra -/

theorem sum_map_sub_div (l : List ℚ) (a b : ℚ) :
    (l.map (fun v => (v - a) / b)).sum =
      (l.sum - (l.length : ℚ) * a) / b := by
  induction l with
  | nil => simp
  | cons x rest ih =>
      simp only [List.map_cons, List.sum_cons, List.length_cons, ih]
      push_cast
      ring

theorem sum_map_div (l : List ℚ) (f : ℚ → ℚ) (b : ℚ) :
    (l.map (fun v => f v / b)).sum = (l.map f).sum / b := by
  induction l with
  | nil => simp
  | cons x rest ih =>
      simp only [List.map_cons, List.sum_cons, ih]
      ring

theorem varQ_len_le_one {l : List ℚ} (h : l.length ≤ 1) : varQ l = 0 := by
  rcases l with _ | ⟨x, _ | ⟨y, r⟩⟩
  · simp [varQ]
  · simp [varQ, meanQ]
  · simp at h

theorem meanQ_map_normalized (l : List ℚ) (σ : ℚ) (hlen : l.length ≠ 0) :
    meanQ (l.map (fun v => (v - meanQ l) / σ)) = 0 := by
  unfold meanQ
  rw [List.length_map, sum_map_sub_div]
  have hl0 : (l.length : ℚ) ≠ 0 := Nat.cast_ne_zero.mpr hlen
  have hnum : l.sum - (l.length : ℚ) * (l.sum / (l.length : ℚ)) = 0 := by
    field_simp
  rw [hnum]
  simp

theorem varQ_map_normalized (l : List ℚ) (σ : ℚ) (hσ : σ ≠ 0)
    (hlen : l.length ≠ 0) (hvar : σ ^ 2 = varQ l) :
    varQ (l.map (fun v => (v - meanQ l) / σ)) = 1 := by
  unfold varQ
  rw [meanQ_map_normalized l σ hlen]
  simp only [sub_zero, List.map_map, List.length_map]
  rw [show ((fun x => x ^ 2) ∘ fun v => (v - meanQ l) / σ)
        = (fun v => ((v - meanQ l) / σ) ^ 2) from rfl]
  have hsq : (l.map (fun v => ((v - meanQ l) / σ) ^ 2)).sum =
      (l.map (fun v => (v - meanQ l) ^ 2)).sum / σ ^ 2 := by
    rw [← sum_map_div l (fun v => (v - meanQ l) ^ 2) (σ ^ 2)]
    apply congrArg
    apply List.map_congr_left
    intro v _
    rw [div_pow]
  have hσ2 : σ ^ 2 ≠ 0 := pow_ne_zero 2 hσ
  unfold varQ at hvar
  have hn1 : ((l.length : ℚ) - 1) ≠ 0 := by
    intro h0
    rw [h0, div_zero] at hvar
    exact hσ2 hvar
  have hS : (l.map (fun v => (v - meanQ l) ^ 2)).sum ≠ 0 := by
    intro h0
    rw [h0, zero_div] at hvar
    exact hσ2 hvar
  rw [hsq, hvar]
  field_simp

/-- Claim C8: the normalization step of `DamDataset.__init__` rescales every
column except the first two by subtracting the dataset-global mean of the
column and dividing by its dataset-global standard deviation, so that the
normalized column has sample mean 0 and sample variance 1 (hence sample
standard deviation 1); the first two columns are left unchanged.  The
standard deviation `std` is characterized by its defining property
`(std c) ^ 2 = sampleVar c`, `0 < std c`; statistics skip the NaN
placeholders of early derived rows, as pandas does.  The statistics are
those of the single stored table computed at construction: `__getitem__`
only slices the stored `data` and never recomputes them. -/
theorem c8_normalization (std : List Cell → ℚ) (t : Table) (hwf : t.WF)
    (j : ℕ) (hj2 : 2 ≤ j) (hjlt : j < t.cols.length)
    (hpos : 0 < std (t.col j))
    (hstd : (std (t.col j)) ^ 2 = sampleVar (t.col j)) :
    (normalizeTable std t).col j =
      (t.col j).map (Option.map
        (fun v => (v - omean (t.col j)) / std (t.col j))) ∧
    omean ((normalizeTable std t).col j) = 0 ∧
    sampleVar ((normalizeTable std t).col j) = 1 ∧
    ∀ j2 < 2, (normalizeTable std t).col j2 = t.col j2 := by
  have hcol : ∀ jq, jq < t.cols.length → (normalizeTable std t).col jq =
      (t.col jq).map (fun x =>
        if jq < 2 then x
        else x.map (fun v => (v - omean (t.col jq)) / std (t.col jq))) := by
    intro jq hjq
    show (normalizeTable std t).rows.map _ = _
    unfold normalizeTable Table.col
    simp only [List.map_map]
    apply List.map_congr_left
    intro r hr
    simp only [Function.comp]
    rw [mapIdx_getD _ _ _ (by rw [hwf r hr]; exact hjq) _ none]
  have hc1 : (normalizeTable std t).col j =
      (t.col j).map (Option.map
        (fun v => (v - omean (t.col j)) / std (t.col j))) := by
    rw [hcol j hjlt]
    apply List.map_congr_left
    intro x _
    rw [if_neg (by omega)]
  have hred : ((normalizeTable std t).col j).reduceOption =
      (t.col j).reduceOption.map
        (fun v => (v - omean (t.col j)) / std (t.col j)) := by
    rw [hc1]
    exact List.reduceOption_map
  have hσ : std (t.col j) ≠ 0 := ne_of_gt hpos
  have hvpos : 0 < sampleVar (t.col j) := by
    rw [← hstd]
    positivity
  have hn2 : 2 ≤ (t.col j).reduceOption.length := by
    by_contra hcon
    push_neg at hcon
    have h0 : varQ ((t.col j).reduceOption) = 0 :=
      varQ_len_le_one (by omega)
    unfold sampleVar at hvpos
    rw [h0] at hvpos
    exact lt_irrefl 0 hvpos
  have hlen0 : (t.col j).reduceOption.length ≠ 0 := by omega
  refine ⟨hc1, ?_, ?_, ?_⟩
  · unfold omean
    rw [hred]
    exact meanQ_map_normalized _ _ hlen0
  · unfold sampleVar
    rw [hred]
    exact varQ_map_normalized _ _ hσ hlen0 hstd
  · intro j2 hj2lt
    rw [hcol j2 (by omega)]
    have : ∀ x ∈ t.col j2, (if j2 < 2 then x
        else x.map (fun v => (v - omean (t.col j2)) / std (t.col j2))) = x := by
      intro x _
      rw [if_pos hj2lt]
    rw [List.map_congr_left this]
    simp

/-- Witness for C8 at a concrete input: the three-row table whose third
column is `0, 1, 2` has sample variance 1, so the constant function 1 is
its standard deviation. -/
theorem c8_normalization_witness :
    (exNorm.WF ∧ (2 : ℕ) ≤ 2 ∧ 2 < exNorm.cols.length ∧
      0 < oneStd (exNorm.col 2) ∧
      oneStd (exNorm.col 2) ^ 2 = sampleVar (exNorm.col 2)) ∧
    ((normalizeTable oneStd exNorm).col 2 =
      (exNorm.col 2).map (Option.map
        (fun v => (v - omean (exNorm.col 2)) / oneStd (exNorm.col 2))) ∧
    omean ((normalizeTable oneStd exNorm).col 2) = 0 ∧
    sampleVar ((normalizeTable oneStd exNorm).col 2) = 1 ∧
    ∀ j2 < 2, (normalizeTable oneStd exNorm).col j2 = exNorm.col j2) :=
  ⟨⟨by decide, by decide, by decide, by norm_num [oneStd], by
      norm_num [oneStd, sampleVar, varQ, meanQ, exNorm, Table.col,
        List.getD, List.reduceOption, List.filterMap_cons,
        List.filterMap_nil]⟩,
    c8_normalization oneStd exNorm (by decide) 2 (by decide) (by decide)
      (by norm_num [oneStd]) (by
        norm_num [oneStd, sampleVar, varQ, meanQ, exNorm, Table.col,
          List.getD, List.reduceOption, List.filterMap_cons,
          List.filterMap_nil])⟩

/-! ### Supporting lemmas: dataset retrieval -/

theorem dropColumn_eq {t : Table} {jd : ℕ}
    (hjd : t.cols.indexOf? damName = some jd) :
    dropColumn t damName =
      { cols := t.cols.eraseIdx jd,
        rows := t.rows.map (fun r => r.eraseIdx jd) } := by
  unfold dropColumn
  rw [hjd]

/-- Claim C2: for every valid index and every configured input scale,
`__getitem__` builds the window of that scale by slicing the normalized
feature rows from `max(0, idx - scale + 1)` (which the truncated natural
subtraction `idx + 1 - scale` equals) through `idx` inclusive, with the
label column removed from every row; the slices are collected per scale in
the order of the scale list; and whenever a pair is returned, its label
component is the single-element container holding the (normalized)
`Dam_Level` value at the index. -/
theorem c2_getitem_slices (std : List Cell → ℚ) (t te : Table)
    (scales scales2 : List ℕ) (jd : ℕ) (d : DamDataset) (idx : ℕ)
    (hcf : create_features t scales2 = .ok te)
    (hjd : (normalizeTable std te).cols.indexOf? damName = some jd)
    (hinit : damDatasetInit std t scales scales2 = .ok d)
    (hidx : idx < d.data.rows.length) :
    d.scales = scales ∧
    (getitemSamples d idx).length = scales.length ∧
    (∀ p, p < scales.length →
      ((getitemSamples d idx).getD p []).length =
        min (scales.getD p 0) (idx + 1) ∧
      ∀ q, q < ((getitemSamples d idx).getD p []).length →
        ((getitemSamples d idx).getD p []).getD q [] =
          ((normalizeTable std te).rows.getD
            (idx + 1 - scales.getD p 0 + q) []).eraseIdx jd) ∧
    (∀ r, getitem d idx = some r →
      r.2 = [((normalizeTable std te).col jd).getD idx none]) := by
  simp only [damDatasetInit, hcf, hjd] at hinit
  injection hinit with hinit
  subst hinit
  rw [dropColumn_eq hjd] at hidx ⊢
  simp only [List.length_map] at hidx
  refine ⟨rfl, by simp [getitemSamples], ?_, ?_⟩
  · intro p hp
    have hget : ∀ dd, (getitemSamples
          { data := dd, labels := (normalizeTable std te).col jd,
            scales := scales } idx).getD p [] =
        windowSlice dd (scales.getD p 0) idx := by
      intro dd
      unfold getitemSamples
      rw [List.getD_eq_getElem _ _ (by simpa using hp), List.getElem_map,
        List.getD_eq_getElem _ _ hp]
    rw [hget]
    constructor
    · unfold windowSlice
      simp only [List.length_drop, List.length_take, List.length_map]
      omega
    · intro q hq
      unfold windowSlice at hq ⊢
      simp only [List.length_drop, List.length_take, List.length_map] at hq
      have hb : idx + 1 - scales.getD p 0 + q <
          (normalizeTable std te).rows.length := by omega
      rw [List.getD_eq_getElem _ _ (by
        simp only [List.length_drop, List.length_take, List.length_map]
        omega)]
      simp only [List.getElem_drop, List.getElem_take, List.getElem_map]
      rw [List.getD_eq_getElem _ _ hb]
  · intro r hr
    unfold getitem at hr
    rcases hpk : packTensor (getitemSamples
        { data := { cols := (normalizeTable std te).cols.eraseIdx jd,
                    rows := (normalizeTable std te).rows.map
                      (fun r => r.eraseIdx jd) },
          labels := (normalizeTable std te).col jd,
          scales := scales } idx) with _ | smp <;> rw [hpk] at hr
    · cases hr
    · rcases hlb : ((normalizeTable std te).col jd).get? idx
          with _ | lv <;> rw [hlb] at hr
      · cases hr
      · injection hr with hr2
        rw [← hr2]
        have hv : ((normalizeTable std te).col jd).getD idx none = lv := by
          rw [List.getD_eq_getElem?_getD, ← List.get?_eq_getElem?, hlb]
          rfl
        rw [hv]

/-- Witness for C2 at a concrete input: the one-row table, input scale list
`[1]`, index 0. -/
theorem c2_getitem_slices_witness :
    (create_features exShort [1] = .ok exShort ∧
      (normalizeTable oneStd exShort).cols.indexOf? damName = some 3 ∧
      damDatasetInit oneStd exShort [1] [1] = .ok exDataset1 ∧
      0 < exDataset1.data.rows.length) ∧
    (exDataset1.scales = [1] ∧
    (getitemSamples exDataset1 0).length = ([1] : List ℕ).length ∧
    (∀ p, p < ([1] : List ℕ).length →
      ((getitemSamples exDataset1 0).getD p []).length =
        min (([1] : List ℕ).getD p 0) (0 + 1) ∧
      ∀ q, q < ((getitemSamples exDataset1 0).getD p []).length →
        ((getitemSamples exDataset1 0).getD p []).getD q [] =
          ((normalizeTable oneStd exShort).rows.getD
            (0 + 1 - ([1] : List ℕ).getD p 0 + q) []).eraseIdx 3) ∧
    (∀ r, getitem exDataset1 0 = some r →
      r.2 = [((normalizeTable oneStd exShort).col 3).getD 0 none])) :=
  ⟨⟨rfl, by decide, rfl, by decide⟩,
    c2_getitem_slices oneStd exShort exShort [1] [1] 3 exDataset1 0 rfl
      (by decide) rfl (by decide)⟩

/-- Claim C6: for every valid index at least `max(input scales) - 1`, the
window `__getitem__` builds for each input scale has length exactly that
scale: the slice `max(0, idx - scale + 1) .. idx` holds `scale` rows. -/
theorem c6_window_lengths (d : DamDataset) (idx : ℕ)
    (hge : maxL d.scales - 1 ≤ idx) (hidx : idx < d.data.rows.length) :
    ∀ p, p < d.scales.length →
      ((getitemSamples d idx).getD p []).length = d.scales.getD p 0 := by
  intro p hp
  have hmem : d.scales.getD p 0 ∈ d.scales := getD_mem hp
  have hsle : d.scales.getD p 0 ≤ maxL d.scales := le_maxL hmem
  unfold getitemSamples
  rw [List.getD_eq_getElem _ _ (by simpa using hp), List.getElem_map]
  have hs : d.scales[p] = d.scales.getD p 0 :=
    (List.getD_eq_getElem _ _ hp).symm
  rw [hs]
  unfold windowSlice
  simp only [List.length_drop, List.length_take]
  omega

/-- Witness for C6 at a concrete input: the four-row table with input
scales `[2, 3]`, index 2. -/
theorem c6_window_lengths_witness :
    (maxL exDataset23.scales - 1 ≤ 2 ∧ 2 < exDataset23.data.rows.length) ∧
    (∀ p, p < exDataset23.scales.length →
      ((getitemSamples exDataset23 2).getD p []).length =
        exDataset23.scales.getD p 0) :=
  ⟨⟨by decide, by decide⟩,
    c6_window_lengths exDataset23 2 (by decide) (by decide)⟩

/-- Claim C10 (amended): with the hard-coded input scales `[12, 24, 36, 48]`
of `main`, `__getitem__` returns a pair exactly for the indices
`idx < 12` that lie inside the table (there every scale window is the same
clipped slice `0 .. idx`, so the packed tensor is rectangular); for every
`idx ≥ 12` the window lengths differ (the scale-12 window has 12 rows, the
scale-24 window more), `torch.Tensor` raises, and no pair is produced — but
not for **every** index, as the original claim stated (see the
counterexample at index 0). -/
theorem c10_ragged_packing (d : DamDataset)
    (hsc : d.scales = [12, 24, 36, 48]) (hwf : d.data.WF)
    (hlab : d.labels.length = d.data.rows.length) (idx : ℕ) :
    (getitem d idx).isSome = true ↔
      (idx < 12 ∧ idx < d.data.rows.length) := by
  constructor
  · intro h
    unfold getitem at h
    rcases hpk : packTensor (getitemSamples d idx) with _ | smp <;>
      rw [hpk] at h
    · simp at h
    rcases hlb : d.labels.get? idx with _ | lv <;> rw [hlb] at h
    · simp at h
    obtain ⟨hlt, _⟩ := List.get?_eq_some.mp hlb
    have hidx : idx < d.data.rows.length := by omega
    refine ⟨?_, hidx⟩
    by_contra hge
    push_neg at hge
    have hnone : packTensor (getitemSamples d idx) = none := by
      unfold packTensor
      split
      · next hcond =>
          exfalso
          simp only [getitemSamples, hsc, List.map_cons, List.map_nil,
            List.all_cons, List.all_nil, List.headD_cons, Bool.and_eq_true,
            beq_iff_eq, Bool.and_true] at hcond
          obtain ⟨h12, ⟨h24len, _⟩, _⟩ := hcond
          unfold windowSlice at h24len
          simp only [List.length_drop, List.length_take] at h24len
          omega
      · rfl
    rw [hnone] at hpk
    cases hpk
  · rintro ⟨h12, hidx⟩
    have hwin : ∀ s : ℕ, 12 ≤ s →
        windowSlice d.data s idx = d.data.rows.take (idx + 1) := by
      intro s hs
      unfold windowSlice
      rw [show idx + 1 - s = 0 by omega, List.drop_zero]
    have hsam : getitemSamples d idx =
        [d.data.rows.take (idx + 1), d.data.rows.take (idx + 1),
         d.data.rows.take (idx + 1), d.data.rows.take (idx + 1)] := by
      simp [getitemSamples, hsc, hwin 12 (by omega), hwin 24 (by omega),
        hwin 36 (by omega), hwin 48 (by omega)]
    have hlb : d.labels.get? idx =
        some (d.labels.get ⟨idx, by omega⟩) := List.get?_eq_get _
    have hwidth : ∀ r ∈ d.data.rows.take (idx + 1),
        r.length = d.data.cols.length := fun r hr =>
      hwf r (List.take_subset _ _ hr)
    have hhead : (d.data.rows.take (idx + 1)).headD [] ∈
        d.data.rows.take (idx + 1) := by
      rcases hl : d.data.rows.take (idx + 1) with _ | ⟨a, tl⟩
      · exfalso
        have hlen0 : (d.data.rows.take (idx + 1)).length = 0 := by
          rw [hl]; rfl
        rw [List.length_take] at hlen0
        omega
      · simp
    have hpk : packTensor (getitemSamples d idx) =
        some (getitemSamples d idx) := by
      unfold packTensor
      split
      · rfl
      · next hcond =>
          exfalso
          apply hcond
          rw [hsam]
          simp only [List.all_cons, List.all_nil, List.headD_cons,
            Bool.and_eq_true, beq_iff_eq, Bool.and_true, List.all_eq_true,
            beq_iff_eq]
          have hrow : ∀ r ∈ d.data.rows.take (idx + 1),
              r.length = ((d.data.rows.take (idx + 1)).headD []).length := by
            intro r hr
            rw [hwidth r hr, hwidth _ hhead]
          refine ⟨⟨trivial, ?_⟩, ⟨trivial, ?_⟩, ⟨trivial, ?_⟩,
              ⟨trivial, ?_⟩⟩ <;>
            exact fun r hr => hrow r hr
    unfold getitem
    rw [hpk, hlb]
    simp

/-- Witness for C10 at a concrete input: the ragged-scale dataset built
from the one-row table. -/
theorem c10_ragged_packing_witness :
    (exDatasetRagged.scales = [12, 24, 36, 48] ∧ exDatasetRagged.data.WF ∧
      exDatasetRagged.labels.length = exDatasetRagged.data.rows.length) ∧
    ((getitem exDatasetRagged 5).isSome = true ↔
      (5 < 12 ∧ 5 < exDatasetRagged.data.rows.length)) :=
  ⟨⟨by decide, by decide, by decide⟩,
    c10_ragged_packing exDatasetRagged (by decide) (by decide) (by decide) 5⟩

/-- Counterexample to C10 as stated: with the hard-coded scales
`[12, 24, 36, 48]`, `__getitem__` does **not** fail for every index — at
index 0 all four windows are the same single-row slice, the packed tensor
is rectangular, and a (sample, label) pair is produced. -/
theorem c10_counterexample :
    exDatasetRagged.scales = [12, 24, 36, 48] ∧
    (getitem exDatasetRagged 0).isSome = true :=
  ⟨by decide, by decide⟩

/-- Claim C5: the training loop keeps a 12-slot ring buffer of loss values
indexed by `epoch mod 12`, initialized to zero, and reports the average of
all 12 slots (zero slots included): at epoch 1 the report is `L1 / 12`, with
one recorded loss per epoch the report at epoch 12 equals `mean(L1..L12)`,
and at epoch 13 slot 1 is overwritten with `L13`, so the report equals
`mean(L13, L2..L12)`. -/
theorem c5_trailing_loss_ring_buffer (L : ℕ → ℚ) :
    reportAvg (runEpochs L 1) = L 1 / 12 ∧
    reportAvg (runEpochs L 12) =
      (L 1 + L 2 + L 3 + L 4 + L 5 + L 6 +
        L 7 + L 8 + L 9 + L 10 + L 11 + L 12) / 12 ∧
    reportAvg (runEpochs L 13) =
      (L 13 + L 2 + L 3 + L 4 + L 5 + L 6 +
        L 7 + L 8 + L 9 + L 10 + L 11 + L 12) / 12 := by
  have h1 : runEpochs L 1 = [0, L 1, 0, 0, 0, 0, 0, 0, 0, 0, 0, 0] := rfl
  have h12 : runEpochs L 12 =
      [L 12, L 1, L 2, L 3, L 4, L 5, L 6, L 7, L 8, L 9, L 10, L 11] := rfl
  have h13 : runEpochs L 13 =
      [L 12, L 13, L 2, L 3, L 4, L 5, L 6, L 7, L 8, L 9, L 10, L 11] := rfl
  refine ⟨?_, ?_, ?_⟩
  · rw [h1]; simp [reportAvg]; try ring
  · rw [h12]; simp [reportAvg]; try ring
  · rw [h13]; simp [reportAvg]; try ring

/-- Claim C4 (refuted; the code is at fault): the model forward pass never
produces a prediction tensor at all, let alone one of shape `(B, 1)`.
Each branch calls `self.transformers[i](encoded)` with a single positional
argument, while `nn.Transformer.forward` requires both `src` and `tgt`, so
the call raises TypeError on every input batch; with the hard-coded
configuration (`input_size = 6`, `hidden_size = 32`, 4 scales) the forward
shape semantics yields an error for every 4-dimensional batch. -/
theorem c4_forward_never_returns (B sq F : ℕ) :
    multiScaleForwardShape 6 32 4 [B, 4, sq, F] = none := by
  have hbind : ∀ x : Option (List ℕ), x.bind transformerOneArgCall = none := by
    intro x; cases x <;> rfl
  have hr : List.range 4 = [0, 1, 2, 3] := rfl
  have h0 : branchShape 6 32 [B, 4, sq, F] 0 = none := by
    simp [branchShape, hbind]
  simp [multiScaleForwardShape, hr, collectBranches, h0]

end Mulbit
